import Mathlib

/-!
Verification development for the rom-validate-web repository.

The definitions below are a shallow embedding, translated from
`src/utils/romValidator.ts` and `src/utils/datLoader.ts`:

* JS strings are modelled as Lean `String`/`List Char`; the source only
  relies on ASCII case mapping, so `toLowerCase`/`toUpperCase` are
  modelled as the ASCII case maps `jsLower`/`jsUpper`.
* JS 32-bit bitwise arithmetic (`crc32`) is modelled on `Nat` with an
  explicit `< 2 ^ 32` invariant; `x >>> n` is `x / 2 ^ n`, `x & 0xff`
  is `x &&& 0xff`, `^` is `Nat.xor`.
* Optional TS fields (`md5?: string`, ...) are `Option String`; the JS
  truthiness test `entry.md5 && ...` becomes `d ≠ ""` on `some d`.
* `localStorage` is modelled as an association list from keys to the
  (already JSON-decoded) cache records; `Map` likewise.
* Browser externals (`DOMParser`, `fetch`, `Date.toLocaleString`,
  `crypto.subtle`) are oracle parameters.
-/

/-! ### ASCII case mapping (JS `toLowerCase` / `toUpperCase`, ASCII range) -/

/-- The 26 ASCII upper/lower case pairs. -/
def upperLowerPairs : List (Char × Char) :=
  [('A', 'a'), ('B', 'b'), ('C', 'c'), ('D', 'd'), ('E', 'e'), ('F', 'f'),
   ('G', 'g'), ('H', 'h'), ('I', 'i'), ('J', 'j'), ('K', 'k'), ('L', 'l'),
   ('M', 'm'), ('N', 'n'), ('O', 'o'), ('P', 'p'), ('Q', 'q'), ('R', 'r'),
   ('S', 's'), ('T', 't'), ('U', 'u'), ('V', 'v'), ('W', 'w'), ('X', 'x'),
   ('Y', 'y'), ('Z', 'z')]

/-- ASCII lower-casing of one character (JS `toLowerCase`, ASCII range). -/
def jsLower (c : Char) : Char :=
  match upperLowerPairs.find? (fun p => p.1 == c) with
  | some p => p.2
  | none => c

/-- ASCII upper-casing of one character (JS `toUpperCase`, ASCII range). -/
def jsUpper (c : Char) : Char :=
  match upperLowerPairs.find? (fun p => p.2 == c) with
  | some p => p.1
  | none => c

/-- JS `s.toLowerCase()`. -/
def lowerStr (s : String) : String := ⟨s.data.map jsLower⟩

/-- JS `s.toUpperCase()`. -/
def upperStr (s : String) : String := ⟨s.data.map jsUpper⟩

/-! ### Whitespace, trim, substring search -/

/-- JS `\s` (ASCII part). -/
def isWS (c : Char) : Bool :=
  c == ' ' || c == '\t' || c == '\n' || c == '\r' || c == '\x0b' || c == '\x0c'

/-- JS `String.prototype.trim` on a character list. -/
def trimL (l : List Char) : List Char :=
  ((l.dropWhile isWS).reverse.dropWhile isWS).reverse

/-- Does `pat` occur as a prefix of `l`? -/
def headL (pat l : List Char) : Bool := pat.isPrefixOf l

/-- JS `haystack.includes(pat)` on character lists. -/
def occursIn (pat : List Char) (l : List Char) : Bool :=
  headL pat l ||
    match l with
    | [] => false
    | _ :: rest => occursIn pat rest

/-- JS `haystack.includes(pat)` on strings. -/
def containsStr (hay pat : String) : Bool := occursIn pat.data hay.data

/-- JS `s.endsWith(suffix)` on character lists. -/
def tailL (pat l : List Char) : Bool := List.isSuffixOf pat l

/-! ### Extension extraction (`substring(lastIndexOf("."))`) and regex
`\.[^/.]+$` removal, used all over the source. -/

/-- JS `name.substring(name.lastIndexOf("."))`: everything from the last
dot on; the whole string when there is no dot (`substring(-1)` clamps
to `0`). -/
def extL (l : List Char) : List Char :=
  if ('.' : Char) ∈ l then
    '.' :: (l.reverse.takeWhile (fun c => !(c == '.'))).reverse
  else l

/-- String form of `extL`. -/
def extOf (s : String) : String := ⟨extL s.data⟩

/-- JS `name.replace(/\.[^\/.]+$/, "")`: strip a final `.ext` whose body
is nonempty and has no `/` or `.`. -/
def removeExtL (l : List Char) : List Char :=
  match l.reverse.dropWhile (fun c => !(c == '.' || c == '/')) with
  | '.' :: rest2 =>
    if l.reverse.takeWhile (fun c => !(c == '.' || c == '/')) = [] then l
    else rest2.reverse
  | _ => l

/-! ### Whitespace collapsing (`replace(/\s+/g, " ")`) -/

/-- JS `replace(/\s+/g, " ")`: each maximal whitespace run becomes one
space.  The boolean flag records whether the previous character was
whitespace (whose run already emitted its space). -/
def collapseAux : Bool → List Char → List Char
  | _, [] => []
  | prevWS, c :: rest =>
    if isWS c then
      if prevWS then collapseAux true rest else ' ' :: collapseAux true rest
    else c :: collapseAux false rest

/-- JS `replace(/\s+/g, " ")`. -/
def collapseWS (l : List Char) : List Char := collapseAux false l

/-! ### The safe character set of `replace(/[^\w\s\-.()[\]]/g, "")` -/

/-- JS `\w` = `[A-Za-z0-9_]`. -/
def isWordChar (c : Char) : Bool :=
  ('a' ≤ c && c ≤ 'z') || ('A' ≤ c && c ≤ 'Z') || ('0' ≤ c && c ≤ '9') || c == '_'

/-- Characters kept by `replace(/[^\w\s\-.()[\]]/g, "")`. -/
def isSafeChar (c : Char) : Bool :=
  isWordChar c || isWS c || c == '-' || c == '.' || c == '(' || c == ')' ||
    c == '[' || c == ']'

/-! ### `normalizeFilename` from `validateROM` (romValidator.ts 555-562) -/

/-- The normalization pipeline of `validateROM`:
lowercase, trim, collapse whitespace runs, strip unsafe characters,
strip one trailing extension. -/
def normalizeL (l : List Char) : List Char :=
  removeExtL ((collapseWS (trimL (l.map jsLower))).filter isSafeChar)

/-- The `normalizeFilename` from `validateROM` (string form). -/
def normalizeFilename (s : String) : String := ⟨normalizeL s.data⟩

/-! ### Checksum engine: `crc32` (romValidator.ts 48-64)

JS numbers under `&`, `^`, `>>>` behave as 32-bit words; the model keeps
`Nat` values below `2 ^ 32` (proved below), so `Nat.xor`/`>>>`/`&&&`
agree with the JS operators. -/

/-- One iteration of the table-building inner loop:
`c = c & 1 ? 0xedb88320 ^ (c >>> 1) : c >>> 1`. -/
def crcStep (c : Nat) : Nat :=
  if c % 2 = 1 then 0xedb88320 ^^^ (c / 2) else c / 2

/-- The `table[i]`: eight iterations of `crcStep` starting from `i`. -/
def crcTableEntry (i : Nat) : Nat :=
  crcStep (crcStep (crcStep (crcStep (crcStep (crcStep (crcStep (crcStep i)))))))

/-- One iteration of the accumulation loop:
`crc = table[(crc ^ data[i]) & 0xff] ^ (crc >>> 8)`. -/
def crcUpdate (crc b : Nat) : Nat :=
  crcTableEntry ((crc ^^^ b) &&& 0xff) ^^^ (crc >>> 8)

/-- The accumulated register over the whole buffer, from `0xffffffff`. -/
def crcAcc (data : List Nat) : Nat := data.foldl crcUpdate 0xffffffff

/-- Hex digits as produced by `toString(16).toUpperCase()`. -/
def hexDigitU (n : Nat) : Char := "0123456789ABCDEF".data.getD n '0'

/-- The `n.toString(16)` (upper-cased), by structural recursion on a fuel
that bounds the digit count (`n` itself suffices: `n / 16 < fuel`
whenever `n < fuel + 1` and `16 ≤ n`). -/
def toHexUAux : Nat → Nat → List Char
  | 0, _ => []
  | fuel + 1, n =>
    if n < 16 then [hexDigitU n]
    else toHexUAux fuel (n / 16) ++ [hexDigitU (n % 16)]

/-- The `n.toString(16)` (upper-cased): big-endian hex digits, no padding. -/
def toHexU (n : Nat) : List Char := toHexUAux (n + 1) n

/-- The `padStart(8, "0")`. -/
def padStart8 (l : List Char) : List Char :=
  List.replicate (8 - l.length) '0' ++ l

/-- The `crc32(data)` (romValidator.ts 48-64): final complement, rendered as
zero-padded uppercase hex. -/
def crc32 (data : List Nat) : String :=
  ⟨padStart8 (toHexU ((crcAcc data ^^^ 0xffffffff) % 2 ^ 32))⟩

/-! ### Data model (romValidator.ts 16-45) -/

/-- The four statuses of `ValidationResult.status`. -/
inductive VStatus where
  | valid
  | invalid
  | unknown
  | renamed
deriving DecidableEq, Repr

/-- The `DATEntry` (romValidator.ts 16-26). -/
structure DATEntry where
  name : String
  size : Nat
  md5 : Option String := none
  sha1 : Option String := none
  crc32 : Option String := none
  platform : Option String := none
  region : Option String := none
  description : Option String := none
deriving DecidableEq, Repr

/-- The `{md5, sha1, crc32}` digest set computed per file. -/
structure FileHashes where
  md5 : String
  sha1 : String
  crc32 : String
deriving DecidableEq, Repr

/-- The `name`/`size` of an input `File` handle. -/
structure FileInfo where
  name : String
  size : Nat
deriving DecidableEq, Repr

/-- The `ValidationResult` (romValidator.ts 28-45); the `file` handle field
is the `FileInfo` itself and is not duplicated. -/
structure ValidationResult where
  filename : String
  originalName : String
  status : VStatus
  platform : Option String
  region : Option String
  size : Nat
  hashes : FileHashes
  matchedEntry : Option DATEntry
  suggestedName : Option String
  issues : List String
  datSource : Option String
deriving DecidableEq, Repr

/-! ### Platform classifier (romValidator.ts 332-460)

`sizeMB = size / (1024 * 1024)` is an exact binary-float division by
`2 ^ 20`, so each float comparison against an integer threshold is
equivalent to the integer comparison used here. -/

/-- The `detectPlatformFromName` (romValidator.ts 332-460). -/
def detectPlatformFromName (filename : String) (size : Nat) : String :=
  let name := lowerStr filename
  let ext := extOf (lowerStr filename)
  if ext == ".gba" then "Game Boy Advance"
  else if ext == ".gb" then "Game Boy"
  else if ext == ".gbc" then "Game Boy Color"
  else if ext == ".nds" then
    (if containsStr name "dsi" then "Nintendo DSi"
     else if containsStr name "download" || containsStr name "demo" then
       "Nintendo DS Download Play"
     else "Nintendo DS")
  else if ext == ".3ds" then "Nintendo 3DS"
  else if ext == ".n64" then "Nintendo 64"
  else if ext == ".z64" then "Nintendo 64"
  else if ext == ".smc" then "Super Nintendo"
  else if ext == ".sfc" then "Super Nintendo"
  else if ext == ".nes" then "Nintendo Entertainment System"
  else if ext == ".cso" then "PSP"
  else if ext == ".pbp" then "PSP"
  else if ext == ".gcm" then "GameCube"
  else if ext == ".ciso" then "GameCube"
  else if ext == ".wbfs" then "Wii"
  else if ext == ".md" then "Sega Genesis"
  else if ext == ".gen" then "Sega Genesis"
  else if ext == ".smd" then "Sega Genesis"
  else if ext == ".cdi" then "Dreamcast"
  else if ext == ".gdi" then "Dreamcast"
  else if ext == ".iso" then
    (if containsStr name "gc" || containsStr name "gamecube" then "GameCube"
     else if containsStr name "ps2" || containsStr name "playstation 2" then
       "PlayStation 2"
     else if containsStr name "wii" || containsStr name "nintendo wii" then "Wii"
     else if containsStr name "psp" then "PSP"
     else if 4500 * 1048576 < size then "PlayStation 2"
     else if 800 * 1048576 < size then "Wii"
     else if 200 * 1048576 ≤ size then "GameCube"
     else "PSP")
  else if ext == ".bin" then
    (if containsStr name "ps2" || containsStr name "playstation 2" then
       "PlayStation 2"
     else if containsStr name "ps1" || containsStr name "psx" ||
         containsStr name "playstation" then "PlayStation"
     else if containsStr name "dreamcast" || containsStr name "dc" then "Dreamcast"
     else if 900 * 1048576 < size then "PlayStation 2"
     else "PlayStation")
  else if ext == ".cue" then "unknown"
  else if containsStr name "nintendo ds" then "Nintendo DS"
  else if containsStr name "nintendo 3ds" then "Nintendo 3DS"
  else if containsStr name "game boy advance" then "Game Boy Advance"
  else if containsStr name "game boy color" then "Game Boy Color"
  else if containsStr name "game boy" then "Game Boy"
  else if containsStr name "nintendo 64" then "Nintendo 64"
  else if containsStr name "super nintendo" then "Super Nintendo"
  else if containsStr name "nintendo entertainment" then
    "Nintendo Entertainment System"
  else if containsStr name "playstation 2" then "PlayStation 2"
  else if containsStr name "playstation" then "PlayStation"
  else if containsStr name "gamecube" then "GameCube"
  else if containsStr name "wii" then "Wii"
  else if containsStr name "psp" then "PSP"
  else if containsStr name "sega genesis" || containsStr name "mega drive" then
    "Sega Genesis"
  else if containsStr name "dreamcast" then "Dreamcast"
  else "unknown"

/-- The `detectRegion` (romValidator.ts 463-472). -/
def detectRegion (filename : String) : Option String :=
  let name := upperStr filename
  if containsStr name "(USA)" || containsStr name "(US)" then some "USA"
  else if containsStr name "(EUROPE)" || containsStr name "(EUR)" then some "Europe"
  else if containsStr name "(JAPAN)" || containsStr name "(JPN)" then some "Japan"
  else if containsStr name "(WORLD)" then some "World"
  else none

/-! ### `getDATSource` (romValidator.ts 475-511) -/

/-- The `PLATFORMS` path table (romValidator.ts 478-499 and
datLoader.ts 13-34). -/
def PLATFORMS : List (String × String) :=
  [("Game Boy Advance", "metadat/no-intro/Nintendo - Game Boy Advance.dat"),
   ("Game Boy", "metadat/no-intro/Nintendo - Game Boy.dat"),
   ("Game Boy Color", "metadat/no-intro/Nintendo - Game Boy Color.dat"),
   ("Nintendo DS", "metadat/no-intro/Nintendo - Nintendo DS.dat"),
   ("Nintendo DS Download Play",
     "metadat/no-intro/Nintendo - Nintendo DS (Download Play).dat"),
   ("Nintendo DSi", "metadat/no-intro/Nintendo - Nintendo DSi.dat"),
   ("Nintendo 3DS", "metadat/no-intro/Nintendo - Nintendo 3DS.dat"),
   ("Nintendo 64", "metadat/no-intro/Nintendo - Nintendo 64.dat"),
   ("Super Nintendo",
     "metadat/no-intro/Nintendo - Super Nintendo Entertainment System.dat"),
   ("Nintendo Entertainment System",
     "metadat/no-intro/Nintendo - Nintendo Entertainment System.dat"),
   ("PlayStation", "metadat/redump/Sony - PlayStation.dat"),
   ("PlayStation 2", "metadat/redump/Sony - PlayStation 2.dat"),
   ("PSP", "metadat/no-intro/Sony - PlayStation Portable.dat"),
   ("GameCube", "metadat/redump/Nintendo - GameCube.dat"),
   ("Wii", "metadat/redump/Nintendo - Wii.dat"),
   ("Sega Genesis", "metadat/no-intro/Sega - Mega Drive - Genesis.dat"),
   ("Dreamcast", "metadat/redump/Sega - Dreamcast.dat")]

/-- The `getDATSource` (romValidator.ts 475-511): tag the catalog family
from the platform's path. -/
def getDATSource (platform : String) : Option String :=
  match (PLATFORMS.find? (fun p => p.1 == platform)).map (fun p => p.2) with
  | none => none
  | some path =>
    if containsStr path "/no-intro/" then some "No-Intro"
    else if containsStr path "/redump/" then some "Redump"
    else none

/-! ### Matching algorithm: `validateROM` (romValidator.ts 514-626) -/

/-- One digest comparison of the `exactMatch` predicate:
`entry.X && hashes.X !== "unavailable" && entry.X.toLowerCase() ===
hashes.X.toLowerCase()`.  The JS truthiness test on the entry's digest
is `some d` with `d ≠ ""`. -/
def digestOk (entryD : Option String) (fileD : String) : Bool :=
  match entryD with
  | none => false
  | some d => d != "" && fileD != "unavailable" && lowerStr d == lowerStr fileD

/-- The `find?` predicate of `validateROM` (romValidator.ts 521-550). -/
def entryMatches (h : FileHashes) (e : DATEntry) : Bool :=
  digestOk e.md5 h.md5 || digestOk e.sha1 h.sha1 || digestOk e.crc32 h.crc32

/-- Suggested-name computation (romValidator.ts 571-583): reuse the
entry's name when it already ends with the original file's extension
(case-insensitively), else strip the entry's extension and append the
original's. -/
def suggestedNameFor (fileName entryName : String) : String :=
  let originalExt := extOf fileName
  if tailL (lowerStr originalExt).data (lowerStr entryName).data then entryName
  else ⟨removeExtL entryName.data ++ originalExt.data⟩

/-- The `validateROM` (romValidator.ts 514-626). -/
def validateROM (file : FileInfo) (hashes : FileHashes)
    (datEntries : List DATEntry) (datSource : Option String) : ValidationResult :=
  match datEntries.find? (entryMatches hashes) with
  | some exactMatch =>
    let isRenamed := normalizeFilename file.name ≠ normalizeFilename exactMatch.name
    { filename := file.name
      originalName := file.name
      status := if isRenamed then .renamed else .valid
      platform := exactMatch.platform
      region := exactMatch.region
      size := file.size
      hashes := hashes
      matchedEntry := some exactMatch
      suggestedName :=
        if isRenamed ∧ exactMatch.name ≠ "" then
          some (suggestedNameFor file.name exactMatch.name)
        else none
      issues := []
      datSource := datSource }
  | none =>
    let sizeMatches := datEntries.filter (fun e => e.size == file.size)
    let platform := detectPlatformFromName file.name file.size
    { filename := file.name
      originalName := file.name
      status := .unknown
      platform := if platform ≠ "unknown" then some platform else none
      region := detectRegion file.name
      size := file.size
      hashes := hashes
      matchedEntry := none
      suggestedName := none
      issues :=
        if sizeMatches.length > 0 then
          ["File size matches known ROMs but hashes differ",
           "May be a ROM hack, translation, or different version"]
        else
          ["No matching entries found in DAT files",
           "File may be a ROM hack, homebrew, or unknown dump"]
      datSource := none }

/-! ### C1: the match predicate, stated from the claim's words -/

/-- One algorithm's match condition as the claim states it: the digest
is present on the entry (a nonempty stored string), the file's value is
not the sentinel, and the two agree ignoring case. -/
def algMatch (entryD : Option String) (fileD : String) : Prop :=
  ∃ d, entryD = some d ∧ d ≠ "" ∧ fileD ≠ "unavailable" ∧ lowerStr d = lowerStr fileD

/-- Predicate: at least one of the three digests matches, for an entry. -/
def claimMatch (h : FileHashes) (e : DATEntry) : Prop :=
  algMatch e.md5 h.md5 ∨ algMatch e.sha1 h.sha1 ∨ algMatch e.crc32 h.crc32

/-! ### Hex-or-sentinel digest sets -/

/-- A hexadecimal character. -/
def isHexChar (c : Char) : Bool :=
  ('0' ≤ c && c ≤ '9') || ('a' ≤ c && c ≤ 'f') || ('A' ≤ c && c ≤ 'F')

/-- A digest value as produced by the checksum engine: a hex string or
the literal sentinel. -/
def hexOrSentinel (s : String) : Prop :=
  s = "unavailable" ∨ ∀ c ∈ s.data, isHexChar c = true

/-- The shape of every `FileDigestSet` in the data model. -/
def wellFormedHashes (h : FileHashes) : Prop :=
  hexOrSentinel h.md5 ∧ hexOrSentinel h.sha1 ∧ hexOrSentinel h.crc32

/-! ### C9: idempotence analysis of the normalization -/

/-- Drop trailing whitespace. -/
def dropTrail (l : List Char) : List Char := (l.reverse.dropWhile isWS).reverse

/-- No leading whitespace. -/
def noLeadWS (l : List Char) : Prop := ∀ c, l.head? = some c → isWS c = false

/-- No trailing whitespace. -/
def noTrailWS (l : List Char) : Prop := ∀ c, l.getLast? = some c → isWS c = false

/-! ### DAT parser (romValidator.ts 112-329)

The ClrMamePro dialect parser uses five search regexes; each is the
pattern `kw` + `\s+` + a capture (a quoted nonempty string, a digit
run, or a hex run), searched left-to-right from every position.  The
char classes after `\s+` are disjoint from whitespace, so the greedy
`\s+` never backtracks and a scan-per-position model is exact. -/

/-- Remove `pat` from the front of `l`, if it is a prefix. -/
def stripPrefixL : List Char → List Char → Option (List Char)
  | [], l => some l
  | _ :: _, [] => none
  | p :: ps, c :: cs => if p == c then stripPrefixL ps cs else none

/-- Try `kw\s+"([^"]+)"` anchored at the head of `l`. -/
def tryQuotedAt (kw : List Char) (l : List Char) : Option (List Char) :=
  match stripPrefixL kw l with
  | none => none
  | some [] => none
  | some (c :: rest2) =>
    if isWS c then
      match rest2.dropWhile isWS with
      | '"' :: rest4 =>
        let cap := rest4.takeWhile (fun d => !(d == '"'))
        if cap ≠ [] ∧ cap.length < rest4.length then some cap else none
      | _ => none
    else none

/-- Search `kw\s+"([^"]+)"` (first match wins, as in `String.match`). -/
def findCapQuoted (kw : List Char) : List Char → Option (List Char)
  | [] => none
  | c :: rest =>
    match tryQuotedAt kw (c :: rest) with
    | some cap => some cap
    | none => findCapQuoted kw rest

/-- Try `kw\s+(X+)` anchored at the head of `l`, where `X` is the char
class `good`. -/
def tryRunAt (kw : List Char) (good : Char → Bool) (l : List Char) : Option (List Char) :=
  match stripPrefixL kw l with
  | none => none
  | some [] => none
  | some (c :: rest2) =>
    if isWS c then
      let cap := (rest2.dropWhile isWS).takeWhile good
      if cap = [] then none else some cap
    else none

/-- Search `kw\s+(X+)` (first match wins). -/
def findCapRun (kw : List Char) (good : Char → Bool) : List Char → Option (List Char)
  | [] => none
  | c :: rest =>
    match tryRunAt kw good (c :: rest) with
    | some cap => some cap
    | none => findCapRun kw good rest

/-- The `[0-9]` (for `\d+` of the size regex). -/
def isDigitB (c : Char) : Bool := '0' ≤ c && c ≤ '9'

/-- The `[a-fA-F0-9]` (the crc/md5/sha1 capture class). -/
def isHexAttrChar (c : Char) : Bool :=
  ('a' ≤ c && c ≤ 'f') || ('A' ≤ c && c ≤ 'F') || ('0' ≤ c && c ≤ '9')

/-- The `parseInt` on an all-digit capture. -/
def digitsToNat (l : List Char) : Nat :=
  l.foldl (fun n c => n * 10 + (c.toNat - 48)) 0

/-- The mutable `currentRom` record of `parseClrMameProDAT`. -/
structure RomRec where
  name : Option String := none
  size : Option Nat := none
  crc32 : Option String := none
  md5 : Option String := none
  sha1 : Option String := none
deriving DecidableEq, Repr

/-- The mutable `currentGame` record of `parseClrMameProDAT`. -/
structure GameRec where
  name : Option String := none
  description : Option String := none
  region : Option String := none
deriving DecidableEq, Repr

/-- The loop state of `parseClrMameProDAT`. -/
structure PState where
  entries : List DATEntry := []
  currentGame : GameRec := {}
  inGame : Bool := false
  inRom : Bool := false
  currentRom : RomRec := {}
  inHeader : Bool := false
deriving DecidableEq, Repr

/-- The five rom-attribute regexes applied to one (trimmed) line; a
field is overwritten exactly when its regex matches (romValidator.ts
224-234 on a rom-opening line, 299-309 on a continuation line).  CRC is
upper-cased, MD5/SHA1 lower-cased on capture. -/
def romCaptures (trimmed : List Char) (r : RomRec) : RomRec :=
  { name :=
      match findCapQuoted "name".data trimmed with
      | some c => some (⟨c⟩ : String)
      | none => r.name
    size :=
      match findCapRun "size".data isDigitB trimmed with
      | some c => some (digitsToNat c)
      | none => r.size
    crc32 :=
      match findCapRun "crc".data isHexAttrChar trimmed with
      | some c => some (⟨c.map jsUpper⟩ : String)
      | none => r.crc32
    md5 :=
      match findCapRun "md5".data isHexAttrChar trimmed with
      | some c => some (⟨c.map jsLower⟩ : String)
      | none => r.md5
    sha1 :=
      match findCapRun "sha1".data isHexAttrChar trimmed with
      | some c => some (⟨c.map jsLower⟩ : String)
      | none => r.sha1 }

/-- Entry emission (romValidator.ts 240-263 and 271-294): the entry
name is the *game* name; `size` defaults to 0 (`currentRom.size || 0`);
platform is the caller's known platform or the classifier's guess. -/
def mkEntry (kp : Option String) (gname : String) (r : RomRec) : DATEntry :=
  { name := gname
    size := r.size.getD 0
    md5 := r.md5
    sha1 := r.sha1
    crc32 := r.crc32
    platform :=
      match kp with
      | some p => some p
      | none =>
        let d := detectPlatformFromName gname (r.size.getD 0)
        if d ≠ "unknown" then some d else none
    region := detectRegion gname
    description := none }

/-- One iteration of the line loop of `parseClrMameProDAT`
(romValidator.ts 185-326), with the branch order of the source. -/
def processLineCore (kp : Option String) (st : PState) (trimmed : List Char) : PState :=
  if headL "clrmamepro (".data trimmed then
    { st with inHeader := true }
  else if st.inHeader ∧ trimmed = [')'] then
    { st with inHeader := false }
  else if st.inHeader then st
  else if headL "game (".data trimmed then
    { st with
      inGame := true
      currentGame :=
        (match findCapQuoted "name".data trimmed with
         | some c => { name := some (⟨c⟩ : String) }
         | none => ({} : GameRec)) }
  else if trimmed = [')'] ∧ st.inGame ∧ ¬ st.inRom then
    { st with inGame := false, currentGame := {} }
  else if headL "rom (".data trimmed ∧ st.inGame then
    if tailL " )".data trimmed then
      match (romCaptures trimmed {}).name, st.currentGame.name with
      | some _, some gname =>
        { st with
          inRom := false
          entries := st.entries ++ [mkEntry kp gname (romCaptures trimmed {})]
          currentRom := {} }
      | _, _ => { st with inRom := false, currentRom := {} }
    else
      { st with inRom := true, currentRom := romCaptures trimmed {} }
  else if trimmed = [')'] ∧ st.inRom then
    match st.currentRom.name, st.currentGame.name with
    | some _, some gname =>
      { st with
        inRom := false
        entries := st.entries ++ [mkEntry kp gname st.currentRom]
        currentRom := {} }
    | _, _ => { st with inRom := false, currentRom := {} }
  else if st.inRom ∧ trimmed ≠ [] then
    { st with currentRom := romCaptures trimmed st.currentRom }
  else if st.inGame ∧ trimmed ≠ [] then
    let g1 : GameRec :=
      match findCapQuoted "name".data trimmed, st.currentGame.name with
      | some c, none => { st.currentGame with name := some (⟨c⟩ : String) }
      | _, _ => st.currentGame
    let g2 : GameRec :=
      match findCapQuoted "description".data trimmed with
      | some c => { g1 with description := some (⟨c⟩ : String) }
      | none => g1
    let g3 : GameRec :=
      match findCapQuoted "region".data trimmed with
      | some c => { g2 with region := some (⟨c⟩ : String) }
      | none => g2
    { st with currentGame := g3 }
  else st

/-- One iteration of the line loop: trim the physical line, then apply
the branch chain. -/
def processLine (kp : Option String) (st : PState) (line : String) : PState :=
  processLineCore kp st (trimL line.data)

/-- JS `split("\n")` on a character list: `""` gives one empty line, a
trailing newline gives a trailing empty line. -/
def splitNL (l : List Char) : List (List Char) :=
  match l with
  | [] => [[]]
  | c :: rest =>
    if c = '\n' then [] :: splitNL rest
    else
      match splitNL rest with
      | [] => [[c]]
      | h :: t => (c :: h) :: t

/-- JS `datContent.split("\n")`. -/
def splitLines (s : String) : List String := (splitNL s.data).map (fun l => ⟨l⟩)

/-- The `parseClrMameProDAT` (romValidator.ts 171-329): fold the line loop
over `split("\n")`. -/
def parseClrMameProDAT (datContent : String) (kp : Option String) : List DATEntry :=
  ((splitLines datContent).foldl (processLine kp) {}).entries

/-! ### XML dialect (romValidator.ts 128-168)

`DOMParser` is a browser API; the DOM of a document is an oracle
parameter.  A `rom` element's attributes are `getAttribute` results
(`none` = attribute absent); a `game` element carries its `name`
attribute, its `description` child text and its `rom` children. -/

/-- A `<rom>` element as seen through `getAttribute`. -/
structure XmlRom where
  size : Option String := none
  md5 : Option String := none
  sha1 : Option String := none
  crc : Option String := none
deriving DecidableEq, Repr

/-- A `<game>` element. -/
structure XmlGame where
  name : Option String := none
  description : Option String := none
  roms : List XmlRom := []
deriving DecidableEq, Repr

/-- JS `x || undefined`: `null` and `""` collapse to `undefined`. -/
def jsOrUndef : Option String → Option String
  | some s => if s = "" then none else some s
  | none => none

/-- The `parseInt` of an attribute string: its leading digit run (a
non-numeric attribute gives JS `NaN`, modelled as 0 — no entry field
downstream distinguishes the two). -/
def jsParseIntNat (s : String) : Nat :=
  digitsToNat (s.data.takeWhile isDigitB)

/-- The `parseXMLDAT` (romValidator.ts 128-168) over the DOM's game list:
one entry per `rom` child; the game name defaults to `""` via
`getAttribute("name") || ""`. -/
def parseXMLDAT (games : List XmlGame) (kp : Option String) : List DATEntry :=
  games.foldl (fun acc game =>
    let gname := game.name.getD ""
    acc ++ game.roms.map (fun rom =>
      let sizeN := jsParseIntNat ((jsOrUndef rom.size).getD "0")
      { name := gname
        size := sizeN
        md5 := jsOrUndef rom.md5
        sha1 := jsOrUndef rom.sha1
        crc32 := jsOrUndef rom.crc
        platform :=
          match kp with
          | some p => some p
          | none =>
            let d := detectPlatformFromName gname sizeN
            if d ≠ "unknown" then some d else none
        region := detectRegion gname
        description := jsOrUndef game.description })) []

/-- The `parseDAT` (romValidator.ts 112-125): two-branch format dispatch;
`dom` is the `DOMParser` oracle used by the markup branch. -/
def parseDAT (dom : String → List XmlGame) (datContent : String)
    (kp : Option String) : List DATEntry :=
  if headL "<?xml".data (trimL datContent.data) ||
      occursIn "<datafile>".data datContent.data then
    parseXMLDAT (dom datContent) kp
  else
    parseClrMameProDAT datContent kp

/-- The `DOMParser` behaviour on the concrete document of the C4
counterexample: one `game` element with no `name` attribute and one
`rom` child with `size="1"`. -/
def domNoNameGame (s : String) : List XmlGame :=
  if s = "<datafile><game><rom size=\"1\"/></game></datafile>" then
    [{ roms := [{ size := some "1" }] }]
  else []

/-! ### Loader/cache (datLoader.ts)

`localStorage` is an association list from string keys to the (already
JSON-decoded) `CachedDATData` records; JSON round-tripping is the
identity in this model, so the `catch` paths for malformed JSON are
unreachable.  The in-memory `Map` is likewise an association list.
`Date.now()` is the `now` parameter (milliseconds);
`toLocaleString` and `fetch` are oracles. -/

/-- The `CachedDATData` (datLoader.ts 82-86). -/
structure CachedDATData where
  entries : List DATEntry
  timestamp : Nat
  version : String
deriving DecidableEq, Repr

/-- The `CACHE_EXPIRY_HOURS` (datLoader.ts 88). -/
def CACHE_EXPIRY_HOURS : Nat := 24

/-- The `CACHE_VERSION` (datLoader.ts 89). -/
def CACHE_VERSION : String := "1.0"

/-- The durable store (`localStorage`). -/
def Store : Type := List (String × CachedDATData)

instance : DecidableEq Store := by
  unfold Store
  infer_instance

/-- The `localStorage.getItem`. -/
def getItem (st : Store) (k : String) : Option CachedDATData :=
  (st.find? (fun p => p.1 == k)).map (fun p => p.2)

/-- The `localStorage.removeItem`. -/
def removeItem (st : Store) (k : String) : Store :=
  st.filter (fun p => !(p.1 == k))

/-- The `localStorage.setItem`. -/
def setItem (st : Store) (k : String) (v : CachedDATData) : Store :=
  (k, v) :: removeItem st k

/-- The in-memory `datCache` map. -/
def MemCache : Type := List (String × List DATEntry)

instance : DecidableEq MemCache := by
  unfold MemCache
  infer_instance

/-- The `Map.set`. -/
def memSet (m : MemCache) (k : String) (v : List DATEntry) : MemCache :=
  (k, v) :: m.filter (fun p => !(p.1 == k))

/-- The `Map.get`. -/
def memGet (m : MemCache) (k : String) : Option (List DATEntry) :=
  (m.find? (fun p => p.1 == k)).map (fun p => p.2)

/-- The `getCacheKey` (datLoader.ts 92-97). -/
def getCacheKey (platform source : String) : String :=
  "dat-cache-" ++ source ++ "-" ++ platform

/-- The `loadFromPersistentCache` (datLoader.ts 100-128): returns the
cached entries and the store as it stands after the call (a stale or
version-mismatched record is removed). -/
def loadFromPersistentCache (now : Nat) (st : Store) (platform source : String) :
    Option (List DATEntry) × Store :=
  match getItem st (getCacheKey platform source) with
  | none => (none, st)
  | some data =>
    if data.version ≠ CACHE_VERSION ∨
        now - data.timestamp > CACHE_EXPIRY_HOURS * 60 * 60 * 1000 then
      (none, removeItem st (getCacheKey platform source))
    else
      (some data.entries, st)

/-- The `saveToPersistentCache` (datLoader.ts 131-147). -/
def saveToPersistentCache (now : Nat) (st : Store) (platform source : String)
    (entries : List DATEntry) : Store :=
  setItem st (getCacheKey platform source)
    { entries := entries, timestamp := now, version := CACHE_VERSION }

/-- The `BUNDLED_DATS` (datLoader.ts 73-76). -/
def BUNDLED_DATS : List (String × String) :=
  [("Nintendo DS Encrypted (Bundled)", "/dats/Nintendo - Nintendo DS (Encrypted).dat")]

/-- One rendered entry of `getRawDATContent`'s cached-entries text
(datLoader.ts 659-669); an absent digest prints as `undefined`. -/
def entryText (i : Nat) (e : DATEntry) : String :=
  "Entry " ++ toString (i + 1) ++ ":\n" ++
  "  Name: " ++ e.name ++ "\n" ++
  "  Size: " ++ toString e.size ++ " bytes\n" ++
  "  CRC32: " ++ (e.crc32.getD "undefined") ++ "\n" ++
  "  MD5: " ++ (e.md5.getD "undefined") ++ "\n" ++
  "  SHA1: " ++ (e.sha1.getD "undefined") ++ "\n"

/-- The `getRawDATContent` (datLoader.ts 588-676), with the `fetch` text
oracle and the `toLocaleString` formatter; the second component is the
durable store after the call — the source performs no store write on
any path of this function, so it passes through unchanged. -/
def getRawDATContent (fetchText : String → Option String)
    (localeFmt : Nat → String) (now : Nat) (st : Store)
    (platform source : String) : Option String × Store :=
  if source = "bundled" then
    let actualPlatform :=
      if platform = "Nintendo DS (Encrypted)" then "Nintendo DS Encrypted (Bundled)"
      else platform
    match (BUNDLED_DATS.find? (fun p => p.1 == actualPlatform)).map (fun p => p.2) with
    | none => (none, st)
    | some datPath =>
      match fetchText datPath with
      | none => (none, st)
      | some rawContent =>
        (some ("# DAT File: " ++ platform ++ " (" ++ source ++ ")\n" ++
          "# Source: Bundled with application\n" ++
          "# Generated: " ++ localeFmt now ++ "\n\n" ++ rawContent), st)
  else
    match getItem st (getCacheKey platform source) with
    | none => (none, st)
    | some data =>
      if now - data.timestamp > CACHE_EXPIRY_HOURS * 60 * 60 * 1000 ∨
          data.version ≠ CACHE_VERSION then
        (none, st)
      else
        (some ("# DAT File: " ++ platform ++ " (" ++ source ++ ")\n" ++
          "# Cached: " ++ localeFmt data.timestamp ++ "\n" ++
          "# Total Entries: " ++ toString data.entries.length ++ "\n" ++
          "# Version: " ++ data.version ++ "\n\n" ++
          String.intercalate "\n" (data.entries.enum.map (fun p => entryText p.1 p.2))), st)

/-- The `file.name.replace(/\.(dat|xml)$/i, "")` (datLoader.ts 548). -/
def stripDatXml (name : String) : String :=
  if List.isSuffixOf ".dat".data (name.data.map jsLower) ∨
      List.isSuffixOf ".xml".data (name.data.map jsLower) then
    ⟨name.data.take (name.data.length - 4)⟩
  else name

/-- The result record of `uploadCustomDAT` (datLoader.ts 540-545). -/
structure UploadResult where
  success : Bool
  platform : String
  entryCount : Nat
  error : Option String
deriving DecidableEq, Repr

/-- The `uploadCustomDAT` (datLoader.ts 540-585): parse under the
synthesized `Custom - {basename}` label; zero entries is an explicit
failure with no cache write, otherwise both cache tiers are written. -/
def uploadCustomDAT (dom : String → List XmlGame) (now : Nat)
    (fileName fileContent : String) (mem : MemCache) (st : Store) :
    UploadResult × MemCache × Store :=
  let platform := "Custom - " ++ stripDatXml fileName
  let entries := parseDAT dom fileContent (some platform)
  if entries.length = 0 then
    ({ success := false, platform := platform, entryCount := 0,
       error := some "No valid entries found in DAT file" }, mem, st)
  else
    ({ success := true, platform := platform, entryCount := entries.length,
       error := none },
     memSet mem ("custom-" ++ platform) entries,
     saveToPersistentCache now st platform "custom" entries)

/-! ### Orchestrator: `validateROMs` (romValidator.ts 636-908)

`calculateFileHashes` (Web Crypto) and the two async loaders are
oracles collected in `Oracles`; progress callbacks are side-effect-only
and dropped.  In this model the loaders are total (the source resolves
every load failure to an empty collection), so the forced-platform
`catch` branch is unreachable. -/

/-- The `EXTENSION_MAP` (datLoader.ts 37-67), normalized to lists. -/
def EXTENSION_MAP (ext : String) : Option (List String) :=
  if ext == ".gba" then some ["Game Boy Advance"]
  else if ext == ".gb" then some ["Game Boy"]
  else if ext == ".gbc" then some ["Game Boy Color"]
  else if ext == ".nds" then
    some ["Nintendo DS", "Nintendo DS Download Play", "Nintendo DSi"]
  else if ext == ".3ds" then some ["Nintendo 3DS"]
  else if ext == ".n64" then some ["Nintendo 64"]
  else if ext == ".z64" then some ["Nintendo 64"]
  else if ext == ".smc" then some ["Super Nintendo"]
  else if ext == ".sfc" then some ["Super Nintendo"]
  else if ext == ".nes" then some ["Nintendo Entertainment System"]
  else if ext == ".iso" then some ["PlayStation 2", "Wii", "PSP", "GameCube"]
  else if ext == ".cso" then some ["PSP"]
  else if ext == ".pbp" then some ["PSP"]
  else if ext == ".gcm" then some ["GameCube"]
  else if ext == ".ciso" then some ["GameCube"]
  else if ext == ".wbfs" then some ["Wii"]
  else if ext == ".bin" then some ["PlayStation", "Dreamcast", "PlayStation 2"]
  else if ext == ".md" then some ["Sega Genesis"]
  else if ext == ".gen" then some ["Sega Genesis"]
  else if ext == ".smd" then some ["Sega Genesis"]
  else if ext == ".cdi" then some ["Dreamcast"]
  else if ext == ".gdi" then some ["Dreamcast"]
  else none

/-- The `getPlatformsForFile` (datLoader.ts 150-161). -/
def getPlatformsForFile (filename : String) : List String :=
  match EXTENSION_MAP (extOf (lowerStr filename)) with
  | none => []
  | some ps => ps

/-- The external collaborators of the orchestrator. -/
structure Oracles where
  loadPlatformDAT : String → List DATEntry
  loadAllDATs : List DATEntry
  hashFile : FileInfo → FileHashes

/-- The try-platforms-until-match loop (romValidator.ts 827-841):
first platform whose `validateROM` outcome is not `unknown`. -/
def firstMatchResult (o : Oracles) (f : FileInfo) (h : FileHashes) :
    List String → Option ValidationResult
  | [] => none
  | p :: rest =>
    let r := validateROM f h (o.loadPlatformDAT p) (getDATSource p)
    if r.status = VStatus.unknown then firstMatchResult o f h rest else some r

/-- The automatic-detection cascade (romValidator.ts 811-899; the same
shape at 706-804 inside the forced branch, which differs only in its
`.iso` fallback list, hence the `isoFallback` parameter). -/
def autoValidate (o : Oracles) (f : FileInfo) (h : FileHashes)
    (isoFallback : List String) : ValidationResult :=
  match getPlatformsForFile f.name with
  | [] => validateROM f h o.loadAllDATs (some "Mixed")
  | [p] => validateROM f h (o.loadPlatformDAT p) (getDATSource p)
  | p1 :: p2 :: rest =>
    let platforms := p1 :: p2 :: rest
    let mostLikely := detectPlatformFromName f.name f.size
    let ordered :=
      if platforms.contains mostLikely then
        mostLikely :: platforms.filter (fun q => !(q == mostLikely))
      else platforms
    match firstMatchResult o f h ordered with
    | some r => r
    | none =>
      let fallback :=
        if extOf (lowerStr f.name) = ".iso" then isoFallback
        else if extOf (lowerStr f.name) = ".bin" then
          ["PlayStation", "Dreamcast", "PlayStation 2"]
        else []
      match firstMatchResult o f h
          (fallback.filter (fun q => !(ordered.contains q))) with
      | some r => r
      | none =>
        validateROM f h (o.loadPlatformDAT (ordered.headD ""))
          (getDATSource (ordered.headD ""))

/-- The per-file body of `validateROMs` (romValidator.ts 683-899):
a forced platform is tried first and auto-detection is the fallback
(with `Wii` in the `.iso` fallback list, romValidator.ts 749-755);
without a forced platform the auto cascade runs directly (`.iso`
fallback list without `Wii`, romValidator.ts 851-853). -/
def perFileValidate (o : Oracles) (force : Option String) (f : FileInfo) :
    ValidationResult :=
  match force with
  | some fp =>
    if (validateROM f (o.hashFile f) (o.loadPlatformDAT fp) (getDATSource fp)).status
        ≠ VStatus.unknown then
      validateROM f (o.hashFile f) (o.loadPlatformDAT fp) (getDATSource fp)
    else
      autoValidate o f (o.hashFile f) ["PlayStation 2", "Wii", "PSP", "GameCube"]
  | none => autoValidate o f (o.hashFile f) ["PlayStation 2", "PSP", "GameCube"]

/-- The result-accumulating loop of `validateROMs`. -/
def validateROMsGo (o : Oracles) (force : Option String) :
    List FileInfo → List ValidationResult
  | [] => []
  | f :: rest => perFileValidate o force f :: validateROMsGo o force rest

/-- The `validateROMs` (romValidator.ts 636-908): `.cue` files are dropped
before hashing (649-653), then each remaining file produces exactly one
result. -/
def validateROMs (o : Oracles) (force : Option String)
    (files : List FileInfo) : List ValidationResult :=
  validateROMsGo o force
    (files.filter (fun f => !(extOf (lowerStr f.name) == ".cue")))

/-! ### Shape lemmas for the hex rendering -/

theorem hexDigitU_mem (m : Nat) : hexDigitU m ∈ "0123456789ABCDEF".data := by
  by_cases h : m < 16
  · interval_cases m <;> decide
  · have : ("0123456789ABCDEF".data).length ≤ m := by
      simp only [not_lt] at h
      exact le_trans (by decide) h
    rw [hexDigitU, List.getD_eq_default _ _ this]
    decide

theorem toHexUAux_length_le :
    ∀ (fuel k n : Nat), 0 < k → n < 16 ^ k → (toHexUAux fuel n).length ≤ k := by
  intro fuel
  induction fuel with
  | zero => intro k n hk _; simp [toHexUAux]
  | succ fuel ih =>
    intro k n hk hn
    rw [toHexUAux]
    split
    · simpa using hk
    · rename_i h16
      have hk2 : 2 ≤ k := by
        by_contra hlt
        have : k = 1 := by omega
        subst this
        simp at hn
        omega
      have hdiv : n / 16 < 16 ^ (k - 1) := by
        apply Nat.div_lt_of_lt_mul
        have : 16 ^ (k - 1) * 16 = 16 ^ k := by
          rw [← pow_succ]
          congr 1
          omega
        omega
      have := ih (k - 1) (n / 16) (by omega) hdiv
      simp only [List.length_append, List.length_singleton]
      omega

theorem toHexU_length_le (k n : Nat) (hk : 0 < k) (hn : n < 16 ^ k) :
    (toHexU n).length ≤ k :=
  toHexUAux_length_le (n + 1) k n hk hn

theorem toHexUAux_mem :
    ∀ (fuel n : Nat), ∀ c ∈ toHexUAux fuel n, c ∈ "0123456789ABCDEF".data := by
  intro fuel
  induction fuel with
  | zero => intro n c hc; simp [toHexUAux] at hc
  | succ fuel ih =>
    intro n c hc
    rw [toHexUAux] at hc
    split at hc
    · rcases List.mem_singleton.mp hc with rfl
      exact hexDigitU_mem n
    · rcases List.mem_append.mp hc with h | h
      · exact ih (n / 16) c h
      · rcases List.mem_singleton.mp h with rfl
        exact hexDigitU_mem (n % 16)

theorem toHexU_mem (n : Nat) : ∀ c ∈ toHexU n, c ∈ "0123456789ABCDEF".data :=
  toHexUAux_mem (n + 1) n

/-- C3: for every byte buffer, `crc32` returns exactly 8 uppercase
hexadecimal characters and is a pure function of the buffer's bytes
(equal buffers give equal output); on the 1-byte buffer `[0x61]` it
returns `"E8B7BE43"`. -/
theorem crc32_hex_shape_deterministic_value :
    (∀ data : List Nat, (crc32 data).length = 8 ∧
        ∀ c ∈ (crc32 data).data, c ∈ "0123456789ABCDEF".data) ∧
    (∀ d d' : List Nat, d = d' → crc32 d = crc32 d') ∧
    crc32 [0x61] = "E8B7BE43" := by
  refine ⟨fun data => ⟨?_, ?_⟩, fun d d' h => h ▸ rfl, by decide⟩
  · have hlt : (crcAcc data ^^^ 0xffffffff) % 2 ^ 32 < 16 ^ 8 := by
      have h1 : (crcAcc data ^^^ 0xffffffff) % 2 ^ 32 < 2 ^ 32 :=
        Nat.mod_lt _ (by norm_num)
      have h2 : (2 : Nat) ^ 32 = 16 ^ 8 := by norm_num
      omega
    have hle := toHexU_length_le 8 _ (by norm_num) hlt
    show (String.mk (padStart8 _)).length = 8
    simp only [String.length, padStart8, List.length_append, List.length_replicate]
    omega
  · intro c hc
    have hc2 : c ∈ padStart8 (toHexU ((crcAcc data ^^^ 0xffffffff) % 2 ^ 32)) := hc
    rcases List.mem_append.mp hc2 with h | h
    · rcases List.eq_of_mem_replicate h with rfl
      decide
    · exact toHexU_mem _ c h

/-- Witness for C3 at the concrete buffer `[0x61]`. -/
theorem crc32_hex_shape_deterministic_value_witness :
    (crc32 [0x61]).length = 8 ∧ crc32 [0x61] = crc32 [0x61] :=
  ⟨(crc32_hex_shape_deterministic_value.1 [0x61]).1,
   crc32_hex_shape_deterministic_value.2.1 [0x61] [0x61] rfl⟩

/-- C6: the matching algorithm only ever produces `valid`, `renamed` or
`unknown`; the reserved status `invalid` is never produced by
`validateROM`. -/
theorem validateROM_status_never_invalid (f : FileInfo) (h : FileHashes)
    (entries : List DATEntry) (ds : Option String) :
    ((validateROM f h entries ds).status = VStatus.valid ∨
      (validateROM f h entries ds).status = VStatus.renamed ∨
      (validateROM f h entries ds).status = VStatus.unknown) ∧
    (validateROM f h entries ds).status ≠ VStatus.invalid := by
  cases hfind : List.find? (entryMatches h) entries with
  | none => simp [validateROM, hfind]
  | some e =>
    simp only [validateROM, hfind]
    constructor
    · split
      · right; left; rfl
      · left; rfl
    · split <;> simp

theorem digestOk_iff (entryD : Option String) (fileD : String) :
    digestOk entryD fileD = true ↔ algMatch entryD fileD := by
  cases entryD with
  | none => simp [digestOk, algMatch]
  | some d => simp [digestOk, algMatch, and_assoc]

theorem entryMatches_iff (h : FileHashes) (e : DATEntry) :
    entryMatches h e = true ↔ claimMatch h e := by
  simp [entryMatches, claimMatch, Bool.or_eq_true, digestOk_iff, or_assoc]

theorem jsLower_hex {c : Char} (hc : isHexChar c = true) :
    isHexChar (jsLower c) = true := by
  rw [jsLower]
  cases hfind : upperLowerPairs.find? (fun p => p.1 == c) with
  | none => exact hc
  | some p =>
    have hp := List.find?_some hfind
    have hmem : p ∈ upperLowerPairs := List.mem_of_find?_eq_some hfind
    have heq : p.1 = c := by simpa using hp
    have : ∀ q ∈ upperLowerPairs, isHexChar q.1 = true → isHexChar q.2 = true := by
      decide
    exact this p hmem (heq ▸ hc)

/-- An entry digest stored as the literal `"unavailable"` can never
satisfy the match condition against a hex-or-sentinel file digest. -/
theorem algMatch_entry_sentinel {fileD : String} (hwf : hexOrSentinel fileD) :
    ¬ algMatch (some "unavailable") fileD := by
  rintro ⟨d, hd, -, hne, hlow⟩
  rcases Option.some.injEq _ _ ▸ hd with rfl
  rcases hwf with rfl | hhex
  · exact hne rfl
  · have hdata : "unavailable".data = fileD.data.map jsLower := by
      have h1 : lowerStr "unavailable" = "unavailable" := by decide
      have := h1.symm.trans hlow
      exact congrArg String.data this
    have hu : ('u' : Char) ∈ fileD.data.map jsLower := by
      rw [← hdata]; decide
    rcases List.mem_map.mp hu with ⟨c, hc, hcl⟩
    have := jsLower_hex (hhex c hc)
    rw [hcl] at this
    exact absurd this (by decide)

/-- The `find?` returns the first element satisfying the predicate:
everything strictly before the hit fails the predicate. -/
theorem find?_first {α : Type} (p : α → Bool) :
    ∀ (l : List α) (a : α), l.find? p = some a →
      p a = true ∧ ∃ i, ∃ hi : i < l.length, l.get ⟨i, hi⟩ = a ∧
        ∀ j, ∀ hj : j < l.length, j < i → p (l.get ⟨j, hj⟩) = false := by
  intro l
  induction l with
  | nil => intro a h; simp at h
  | cons x xs ih =>
    intro a h
    by_cases hx : p x = true
    · rw [List.find?_cons_of_pos _ hx] at h
      rcases Option.some.injEq _ _ ▸ h with rfl
      refine ⟨hx, 0, by simp, rfl, ?_⟩
      intro j hj hj0
      omega
    · rw [List.find?_cons_of_neg _ (by simpa using hx)] at h
      rcases ih a h with ⟨hpa, i, hi, hget, hprev⟩
      refine ⟨hpa, i + 1, by simpa using Nat.succ_lt_succ hi, by simpa using hget, ?_⟩
      intro j hj hji
      cases j with
      | zero => simpa using eq_false_of_ne_true hx
      | succ j =>
        have hj' : j < xs.length := by simpa using hj
        have := hprev j hj' (by omega)
        simpa using this

/-- C1: `validateROM` selects as match the first entry (in list order)
one of whose three stored digests is present, with the file's value for
that algorithm not the sentinel `"unavailable"`, and the two values
equal ignoring case.  A file digest equal to `"unavailable"` never
participates in a comparison, and — for the hex-or-sentinel digest sets
the checksum engine produces — an entry whose stored digest is the
literal `"unavailable"` never matches any file. -/
theorem validateROM_selects_first_match (f : FileInfo) (h : FileHashes)
    (entries : List DATEntry) (ds : Option String) (hwf : wellFormedHashes h) :
    (validateROM f h entries ds).matchedEntry = entries.find? (entryMatches h) ∧
    (∀ e, (validateROM f h entries ds).matchedEntry = some e →
      claimMatch h e ∧ ∃ i, ∃ hi : i < entries.length, entries.get ⟨i, hi⟩ = e ∧
        ∀ j, ∀ hj : j < entries.length, j < i →
          ¬ claimMatch h (entries.get ⟨j, hj⟩)) ∧
    (h.md5 = "unavailable" → ∀ e : DATEntry, ¬ algMatch e.md5 h.md5) ∧
    (h.sha1 = "unavailable" → ∀ e : DATEntry, ¬ algMatch e.sha1 h.sha1) ∧
    (h.crc32 = "unavailable" → ∀ e : DATEntry, ¬ algMatch e.crc32 h.crc32) ∧
    (∀ e : DATEntry,
      (e.md5 = some "unavailable" → ¬ algMatch e.md5 h.md5) ∧
      (e.sha1 = some "unavailable" → ¬ algMatch e.sha1 h.sha1) ∧
      (e.crc32 = some "unavailable" → ¬ algMatch e.crc32 h.crc32)) := by
  have hme : (validateROM f h entries ds).matchedEntry
      = entries.find? (entryMatches h) := by
    cases hfind : List.find? (entryMatches h) entries with
    | none => simp [validateROM, hfind]
    | some e => simp [validateROM, hfind]
  refine ⟨hme, ?_, ?_, ?_, ?_, ?_⟩
  · intro e he
    rw [hme] at he
    rcases find?_first (entryMatches h) entries e he with ⟨hpa, i, hi, hget, hprev⟩
    refine ⟨(entryMatches_iff h e).mp hpa, i, hi, hget, ?_⟩
    intro j hj hji hcm
    have hfalse := hprev j hj hji
    have htrue := (entryMatches_iff h _).mpr hcm
    rw [htrue] at hfalse
    simp at hfalse
  · rintro hmd5 e ⟨d, -, -, hne, -⟩
    exact hne hmd5
  · rintro hsha1 e ⟨d, -, -, hne, -⟩
    exact hne hsha1
  · rintro hcrc e ⟨d, -, -, hne, -⟩
    exact hne hcrc
  · intro e
    refine ⟨fun heq => ?_, fun heq => ?_, fun heq => ?_⟩
    · rw [heq]; exact algMatch_entry_sentinel hwf.1
    · rw [heq]; exact algMatch_entry_sentinel hwf.2.1
    · rw [heq]; exact algMatch_entry_sentinel hwf.2.2

/-- Witness for C1 at a concrete file, digest set and catalog: the
second entry is the hit (crc32, case-insensitive) and the sentinel md5
digest participates in no comparison. -/
theorem validateROM_selects_first_match_witness :
    ((validateROM ⟨"game.gba", 4⟩ ⟨"unavailable", "unavailable", "AAAA1111"⟩
        [{ name := "Other", size := 4, crc32 := some "BBBB2222" },
         { name := "Game (USA)", size := 4, crc32 := some "aaaa1111" }]
        none).matchedEntry
      = List.find? (entryMatches ⟨"unavailable", "unavailable", "AAAA1111"⟩)
          [{ name := "Other", size := 4, crc32 := some "BBBB2222" },
           { name := "Game (USA)", size := 4, crc32 := some "aaaa1111" }]) ∧
    (∀ e : DATEntry, ¬ algMatch e.md5 "unavailable") := by
  have hwf : wellFormedHashes ⟨"unavailable", "unavailable", "AAAA1111"⟩ := by
    refine ⟨Or.inl rfl, Or.inl rfl, Or.inr ?_⟩
    decide
  have := validateROM_selects_first_match ⟨"game.gba", 4⟩
    ⟨"unavailable", "unavailable", "AAAA1111"⟩
    [{ name := "Other", size := 4, crc32 := some "BBBB2222" },
     { name := "Game (USA)", size := 4, crc32 := some "aaaa1111" }]
    none hwf
  exact ⟨this.1, this.2.2.1 rfl⟩

/-- C2 (amended): on a matched pair the status is `valid` iff the
normalized input filename equals the normalized entry name, else
`renamed`; on `renamed`, `suggestedName` carries the entry's name with
the original file's extension — but only when the entry's name is
nonempty (the JS truthiness guard `isRenamed && exactMatch.name` leaves
it absent for an empty entry name). -/
theorem validateROM_matched_status_rename (f : FileInfo) (h : FileHashes)
    (entries : List DATEntry) (ds : Option String) (e : DATEntry)
    (hm : (validateROM f h entries ds).matchedEntry = some e) :
    ((validateROM f h entries ds).status = VStatus.valid ↔
      normalizeFilename f.name = normalizeFilename e.name) ∧
    ((validateROM f h entries ds).status = VStatus.renamed ↔
      normalizeFilename f.name ≠ normalizeFilename e.name) ∧
    ((validateROM f h entries ds).status = VStatus.renamed →
      (validateROM f h entries ds).suggestedName =
        if e.name ≠ "" then some (suggestedNameFor f.name e.name) else none) := by
  cases hfind : List.find? (entryMatches h) entries with
  | none => simp [validateROM, hfind] at hm
  | some a =>
    have ha : a = e := by simpa [validateROM, hfind] using hm
    subst ha
    by_cases hr : normalizeFilename f.name = normalizeFilename a.name
    · refine ⟨?_, ?_, ?_⟩
      · simp [validateROM, hfind, hr]
      · simp [validateROM, hfind, hr]
      · intro hst
        exfalso
        simp [validateROM, hfind, hr] at hst
    · refine ⟨?_, ?_, ?_⟩
      · simp [validateROM, hfind, hr]
      · simp [validateROM, hfind, hr]
      · intro _
        by_cases hn : a.name = "" <;> simp [validateROM, hfind, hr, hn]

/-- Counterexample to C2 as stated: a matched entry with an empty name
yields status `renamed` but **no** `suggestedName` (the claim asserts
one is always present on `renamed`). -/
theorem validateROM_empty_entry_name_no_suggestion :
    (validateROM ⟨"a.gba", 1⟩ ⟨"unavailable", "unavailable", "AAAA1111"⟩
        [{ name := "", size := 1, crc32 := some "aaaa1111" }] none).status
      = VStatus.renamed ∧
    (validateROM ⟨"a.gba", 1⟩ ⟨"unavailable", "unavailable", "AAAA1111"⟩
        [{ name := "", size := 1, crc32 := some "aaaa1111" }] none).matchedEntry
      = some { name := "", size := 1, crc32 := some "aaaa1111" } ∧
    (validateROM ⟨"a.gba", 1⟩ ⟨"unavailable", "unavailable", "AAAA1111"⟩
        [{ name := "", size := 1, crc32 := some "aaaa1111" }] none).suggestedName
      = none := by
  decide

/-- Witness for the amended C2 at the spec's own scenario 5: the match
is case-insensitive on crc32, the normalized names differ, and the
suggested name is the entry's name (it already ends in `.gba`). -/
theorem validateROM_matched_status_rename_witness :
    (validateROM ⟨"foo.gba", 1⟩ ⟨"unavailable", "unavailable", "abcd1234"⟩
        [{ name := "Foo (USA).gba", size := 1, crc32 := some "ABCD1234" }]
        none).status = VStatus.renamed ∧
    (validateROM ⟨"foo.gba", 1⟩ ⟨"unavailable", "unavailable", "abcd1234"⟩
        [{ name := "Foo (USA).gba", size := 1, crc32 := some "ABCD1234" }]
        none).suggestedName
      = if ("Foo (USA).gba" : String) ≠ "" then
          some (suggestedNameFor "foo.gba" "Foo (USA).gba") else none := by
  have h := validateROM_matched_status_rename ⟨"foo.gba", 1⟩
      ⟨"unavailable", "unavailable", "abcd1234"⟩
      [{ name := "Foo (USA).gba", size := 1, crc32 := some "ABCD1234" }] none
      { name := "Foo (USA).gba", size := 1, crc32 := some "ABCD1234" } (by decide)
  have hst := h.2.1.mpr (by decide)
  exact ⟨hst, h.2.2 hst⟩

theorem trimL_eq (l : List Char) : trimL l = dropTrail (l.dropWhile isWS) := rfl

theorem jsLower_idem (c : Char) : jsLower (jsLower c) = jsLower c := by
  cases hf : upperLowerPairs.find? (fun p => p.1 == c) with
  | none =>
    have h1 : jsLower c = c := by rw [jsLower, hf]
    rw [h1]
    exact h1
  | some p =>
    have hmem := List.mem_of_find?_eq_some hf
    have h1 : jsLower c = p.2 := by rw [jsLower, hf]
    rw [h1]
    have hfix : ∀ q ∈ upperLowerPairs, jsLower q.2 = q.2 := by decide
    exact hfix p hmem

theorem jsLower_safe {c : Char} (h : isSafeChar c = true) :
    isSafeChar (jsLower c) = true := by
  rw [jsLower]
  cases hf : upperLowerPairs.find? (fun p => p.1 == c) with
  | none => exact h
  | some p =>
    have hmem := List.mem_of_find?_eq_some hf
    have hsafe2 : ∀ q ∈ upperLowerPairs, isSafeChar q.2 = true := by decide
    exact hsafe2 p hmem

theorem jsLower_dot {c : Char} (h : jsLower c = '.') : c = '.' := by
  rw [jsLower] at h
  cases hf : upperLowerPairs.find? (fun p => p.1 == c) with
  | none => rw [hf] at h; exact h
  | some p =>
    rw [hf] at h
    have hmem := List.mem_of_find?_eq_some hf
    have : ∀ q ∈ upperLowerPairs, q.2 ≠ '.' := by decide
    exact absurd h (this p hmem)

theorem map_fix {f : Char → Char} :
    ∀ l : List Char, (∀ c ∈ l, f c = c) → l.map f = l := by
  intro l h
  induction l with
  | nil => rfl
  | cons c rest ih =>
    simp only [List.map_cons]
    rw [h c (List.mem_cons_self c rest), ih (fun d hd => h d (List.mem_cons_of_mem c hd))]

theorem collapseAux_idem :
    ∀ (l : List Char) (b : Bool), collapseAux b (collapseAux b l) = collapseAux b l := by
  intro l
  induction l with
  | nil => intro b; rfl
  | cons c rest ih =>
    intro b
    cases hws : isWS c with
    | false =>
      simp only [collapseAux, hws, Bool.false_eq_true, if_false]
      rw [ih false]
    | true =>
      cases b with
      | true =>
        simp only [collapseAux, hws, if_true]
        exact ih true
      | false =>
        simp only [collapseAux, hws, if_true, if_false]
        have hsp : isWS ' ' = true := by decide
        simp only [collapseAux, hsp, if_true, if_false]
        rw [ih true]

theorem mem_dropTrail {c : Char} {l : List Char} (h : c ∈ dropTrail l) : c ∈ l := by
  rw [dropTrail, List.mem_reverse] at h
  have := (List.dropWhile_sublist (l := l.reverse) (p := isWS)).mem h
  simpa using this

theorem mem_trimL {c : Char} {l : List Char} (h : c ∈ trimL l) : c ∈ l := by
  rw [trimL_eq] at h
  exact (List.dropWhile_sublist (l := l) (p := isWS)).mem (mem_dropTrail h)

theorem mem_collapseAux {c : Char} :
    ∀ (l : List Char) (b : Bool), c ∈ collapseAux b l → c = ' ' ∨ c ∈ l := by
  intro l
  induction l with
  | nil => intro b h; simp [collapseAux] at h
  | cons d rest ih =>
    intro b h
    cases hws : isWS d with
    | false =>
      simp only [collapseAux, hws, Bool.false_eq_true, if_false] at h
      rcases List.mem_cons.mp h with rfl | h2
      · right; exact List.mem_cons_self _ _
      · rcases ih false h2 with h3 | h3
        · left; exact h3
        · right; exact List.mem_cons_of_mem _ h3
    | true =>
      cases b with
      | true =>
        simp only [collapseAux, hws, if_true] at h
        rcases ih true h with h3 | h3
        · left; exact h3
        · right; exact List.mem_cons_of_mem _ h3
      | false =>
        simp only [collapseAux, hws, if_true, if_false] at h
        rcases List.mem_cons.mp h with rfl | h2
        · left; rfl
        · rcases ih true h2 with h3 | h3
          · left; exact h3
          · right; exact List.mem_cons_of_mem _ h3

theorem noLeadWS_dropWhile (l : List Char) : noLeadWS (l.dropWhile isWS) := by
  induction l with
  | nil => intro c h; simp at h
  | cons d rest ih =>
    intro c h
    cases hws : isWS d with
    | true =>
      rw [List.dropWhile_cons_of_pos hws] at h
      exact ih c h
    | false =>
      rw [List.dropWhile_cons_of_neg (by simp [hws])] at h
      simp only [List.head?_cons, Option.some.injEq] at h
      rw [← h]
      exact hws

theorem noLeadWS_dropTrail {l : List Char} (h : noLeadWS l) : noLeadWS (dropTrail l) := by
  intro c hc
  have hpre : dropTrail l <+: l := by
    have h2 := List.reverse_prefix.mpr (List.dropWhile_suffix (l := l.reverse) isWS)
    simpa [dropTrail] using h2
  rcases hpre with ⟨t, ht⟩
  cases hdt : dropTrail l with
  | nil => rw [hdt] at hc; simp at hc
  | cons d m =>
    rw [hdt] at hc ht
    simp only [List.head?_cons, Option.some.injEq] at hc
    apply h c
    rw [← ht]
    simp [hc]

theorem noTrailWS_dropTrail (l : List Char) : noTrailWS (dropTrail l) := by
  intro c hc
  rw [dropTrail, List.getLast?_reverse] at hc
  exact noLeadWS_dropWhile l.reverse c hc

theorem noLeadWS_collapseAux {l : List Char} (h : noLeadWS l) :
    noLeadWS (collapseAux false l) := by
  cases l with
  | nil => intro c hc; simp [collapseAux] at hc
  | cons d rest =>
    have hd : isWS d = false := h d (by simp)
    intro c hc
    simp only [collapseAux, hd, Bool.false_eq_true, if_false, List.head?_cons,
      Option.some.injEq] at hc
    rw [← hc]
    exact hd

theorem collapseAux_cons (b : Bool) (c : Char) (rest : List Char) :
    collapseAux b (c :: rest) =
      if isWS c then
        (if b then collapseAux true rest else ' ' :: collapseAux true rest)
      else c :: collapseAux false rest := rfl

theorem getLast?_collapseAux :
    ∀ (l : List Char) (b : Bool), noTrailWS l →
      (collapseAux b l).getLast? = l.getLast? := by
  intro l
  induction l with
  | nil => intro b _; rfl
  | cons c rest ih =>
    intro b h
    cases rest with
    | nil =>
      have hc : isWS c = false := h c (by simp)
      cases b <;> simp [collapseAux, hc]
    | cons d rest2 =>
      have hrest : noTrailWS (d :: rest2) := by
        intro x hx
        apply h
        rw [List.getLast?_cons_cons]
        exact hx
      have hih : ∀ b2, (collapseAux b2 (d :: rest2)).getLast? = (d :: rest2).getLast? :=
        fun b2 => ih b2 hrest
      have hnonnil : ∀ b2, collapseAux b2 (d :: rest2) ≠ [] := by
        intro b2 hnil
        have := hih b2
        rw [hnil] at this
        have h2 : (d :: rest2).getLast? = none := this.symm
        simp [List.getLast?_eq_none_iff] at h2
      cases hws : isWS c with
      | false =>
        rw [collapseAux_cons, hws]
        simp only [Bool.false_eq_true, if_false]
        cases hM : collapseAux false (d :: rest2) with
        | nil => exact absurd hM (hnonnil false)
        | cons m ms =>
          have hlast := hih false
          rw [hM] at hlast
          rw [List.getLast?_cons_cons, hlast, List.getLast?_cons_cons]
      | true =>
        cases b with
        | true =>
          rw [collapseAux_cons, hws]
          simp only [if_true]
          rw [hih true, List.getLast?_cons_cons]
        | false =>
          rw [collapseAux_cons, hws]
          simp only [if_true, Bool.false_eq_true, if_false]
          cases hM : collapseAux true (d :: rest2) with
          | nil => exact absurd hM (hnonnil true)
          | cons m ms =>
            have hlast := hih true
            rw [hM] at hlast
            rw [List.getLast?_cons_cons, hlast, List.getLast?_cons_cons]

theorem noTrailWS_collapseAux {l : List Char} (b : Bool) (h : noTrailWS l) :
    noTrailWS (collapseAux b l) := by
  intro c hc
  rw [getLast?_collapseAux l b h] at hc
  exact h c hc

theorem dropWhile_eq_self_of_noLead {l : List Char} (h : noLeadWS l) :
    l.dropWhile isWS = l := by
  cases l with
  | nil => rfl
  | cons d rest =>
    have hd : isWS d = false := h d (by simp)
    rw [List.dropWhile_cons_of_neg (by simp [hd])]

theorem trimL_eq_self {l : List Char} (h1 : noLeadWS l) (h2 : noTrailWS l) :
    trimL l = l := by
  rw [trimL_eq, dropWhile_eq_self_of_noLead h1, dropTrail]
  have hrev : noLeadWS l.reverse := by
    intro c hc
    rw [List.head?_reverse] at hc
    exact h2 c hc
  rw [dropWhile_eq_self_of_noLead hrev, List.reverse_reverse]

theorem removeExtL_no_dot {l : List Char} (h : ('.' : Char) ∉ l) :
    removeExtL l = l := by
  unfold removeExtL
  split
  · rename_i rest2 heq
    exfalso
    apply h
    have hmem : ('.' : Char) ∈ l.reverse.dropWhile (fun c => !(c == '.' || c == '/')) := by
      rw [heq]
      exact List.mem_cons_self _ _
    have := (List.dropWhile_sublist (l := l.reverse)
      (p := fun c => !(c == '.' || c == '/'))).mem hmem
    simpa using this
  · rfl

/-- Counterexample to C9 as stated: the normalization strips one
trailing extension per application, so it is not idempotent — on
`"a.b.c"` a second application strips a second extension. -/
theorem normalizeFilename_not_idempotent :
    normalizeFilename "a.b.c" = "a.b" ∧
    normalizeFilename (normalizeFilename "a.b.c") = "a" ∧
    normalizeFilename (normalizeFilename "a.b.c") ≠ normalizeFilename "a.b.c" := by
  decide

/-- C9 (amended): the normalization is idempotent on every string whose
characters all lie in the safe set kept by the character filter and
which contains no `'.'` (each application strips one further extension,
and stripping unsafe characters can expose fresh whitespace runs, so
both restrictions are needed). -/
theorem normalizeFilename_idem_safe_dotless (s : String)
    (hsafe : ∀ c ∈ s.data, isSafeChar c = true)
    (hdot : ('.' : Char) ∉ s.data) :
    normalizeFilename (normalizeFilename s) = normalizeFilename s := by
  set y := s.data.map jsLower with hy
  set t := trimL y with ht
  set x := collapseAux false t with hx
  have hy_fix : ∀ c ∈ y, jsLower c = c := by
    intro c hc
    rcases List.mem_map.mp hc with ⟨c0, _, rfl⟩
    exact jsLower_idem c0
  have hy_safe : ∀ c ∈ y, isSafeChar c = true := by
    intro c hc
    rcases List.mem_map.mp hc with ⟨c0, hc0, rfl⟩
    exact jsLower_safe (hsafe c0 hc0)
  have hy_dot : ('.' : Char) ∉ y := by
    intro hdy
    rcases List.mem_map.mp hdy with ⟨c0, hc0, hcl⟩
    exact hdot (jsLower_dot hcl ▸ hc0)
  have hx_mem : ∀ c ∈ x, c = ' ' ∨ c ∈ y := by
    intro c hc
    rcases mem_collapseAux t false (hx ▸ hc) with h | h
    · left; exact h
    · right; exact mem_trimL (ht ▸ h)
  have hx_fix : ∀ c ∈ x, jsLower c = c := by
    intro c hc
    rcases hx_mem c hc with rfl | h
    · decide
    · exact hy_fix c h
  have hx_safe : ∀ c ∈ x, isSafeChar c = true := by
    intro c hc
    rcases hx_mem c hc with rfl | h
    · decide
    · exact hy_safe c h
  have hx_dot : ('.' : Char) ∉ x := by
    intro hc
    rcases hx_mem _ hc with h | h
    · exact absurd h (by decide)
    · exact hy_dot h
  have hstep1 : normalizeL s.data = x := by
    simp only [normalizeL, collapseWS, ← hy, ← ht, ← hx]
    rw [List.filter_eq_self.mpr hx_safe, removeExtL_no_dot hx_dot]
  have ht_lead : noLeadWS t := by
    rw [ht, trimL_eq]
    exact noLeadWS_dropTrail (noLeadWS_dropWhile y)
  have ht_trail : noTrailWS t := by
    rw [ht, trimL_eq]
    exact noTrailWS_dropTrail _
  have hx_lead : noLeadWS x := hx ▸ noLeadWS_collapseAux ht_lead
  have hx_trail : noTrailWS x := hx ▸ noTrailWS_collapseAux false ht_trail
  have hstep2 : normalizeL x = x := by
    simp only [normalizeL, collapseWS]
    rw [map_fix x hx_fix, trimL_eq_self hx_lead hx_trail,
      show collapseAux false x = x from hx ▸ collapseAux_idem t false,
      List.filter_eq_self.mpr hx_safe, removeExtL_no_dot hx_dot]
  have hfin1 : normalizeFilename s = ⟨x⟩ := by
    show (⟨normalizeL s.data⟩ : String) = ⟨x⟩
    rw [hstep1]
  have hfin2 : normalizeFilename ⟨x⟩ = (⟨x⟩ : String) := by
    show (⟨normalizeL x⟩ : String) = ⟨x⟩
    rw [hstep2]
  rw [hfin1, hfin2]

/-- Witness for the amended C9 at a concrete safe, dot-free string. -/
theorem normalizeFilename_idem_safe_dotless_witness :
    normalizeFilename (normalizeFilename "Game  Boy (USA)") =
      normalizeFilename "Game  Boy (USA)" :=
  normalizeFilename_idem_safe_dotless "Game  Boy (USA)" (by decide) (by decide)

/-- Counterexample to C4's universal skip clause: on the markup dialect
a `game` block with *no* name attribute still emits an entry (with the
empty name supplied by `getAttribute("name") || ""`) — the block is not
skipped. -/
theorem parseDAT_xml_missing_name_emits :
    (parseDAT domNoNameGame "<datafile><game><rom size=\"1\"/></game></datafile>"
        none).map (fun e => e.name) = [""] ∧
    (parseDAT domNoNameGame "<datafile><game><rom size=\"1\"/></game></datafile>"
        none) ≠ [] := by
  constructor
  · decide
  · decide

/-- No entry is emitted while the game name is unset. -/
theorem processLineCore_no_game_name (kp : Option String) (st : PState)
    (tl : List Char) (hg : st.currentGame.name = none) :
    (processLineCore kp st tl).entries = st.entries := by
  unfold processLineCore
  by_cases h1 : headL "clrmamepro (".data tl = true
  · rw [if_pos h1]
  rw [if_neg h1]
  by_cases h2 : st.inHeader = true ∧ tl = [')']
  · rw [if_pos h2]
  rw [if_neg h2]
  by_cases h3 : st.inHeader = true
  · rw [if_pos h3]
  rw [if_neg h3]
  by_cases h4 : headL "game (".data tl = true
  · rw [if_pos h4]
  rw [if_neg h4]
  by_cases h5 : tl = [')'] ∧ st.inGame = true ∧ ¬ st.inRom = true
  · rw [if_pos h5]
  rw [if_neg h5]
  by_cases h6 : headL "rom (".data tl = true ∧ st.inGame = true
  · rw [if_pos h6]
    by_cases h7 : tailL " )".data tl = true
    · rw [if_pos h7, hg]
      cases hname : (romCaptures tl {}).name <;> rfl
    · rw [if_neg h7]
  · rw [if_neg h6]
    by_cases h8 : tl = [')'] ∧ st.inRom = true
    · rw [if_pos h8, hg]
      cases hname : st.currentRom.name <;> rfl
    · rw [if_neg h8]
      by_cases h9 : st.inRom = true ∧ tl ≠ []
      · rw [if_pos h9]
      · rw [if_neg h9]
        by_cases h10 : st.inGame = true ∧ tl ≠ []
        · rw [if_pos h10]
        · rw [if_neg h10]

/-- No entry is emitted while the rom name is unset and the line
carries no `name "..."` capture. -/
theorem processLineCore_no_rom_name (kp : Option String) (st : PState)
    (tl : List Char) (hrn : st.currentRom.name = none)
    (hnm : findCapQuoted "name".data tl = none) :
    (processLineCore kp st tl).entries = st.entries := by
  unfold processLineCore
  by_cases h1 : headL "clrmamepro (".data tl = true
  · rw [if_pos h1]
  rw [if_neg h1]
  by_cases h2 : st.inHeader = true ∧ tl = [')']
  · rw [if_pos h2]
  rw [if_neg h2]
  by_cases h3 : st.inHeader = true
  · rw [if_pos h3]
  rw [if_neg h3]
  by_cases h4 : headL "game (".data tl = true
  · rw [if_pos h4]
  rw [if_neg h4]
  by_cases h5 : tl = [')'] ∧ st.inGame = true ∧ ¬ st.inRom = true
  · rw [if_pos h5]
  rw [if_neg h5]
  by_cases h6 : headL "rom (".data tl = true ∧ st.inGame = true
  · rw [if_pos h6]
    by_cases h7 : tailL " )".data tl = true
    · rw [if_pos h7]
      have hr : (romCaptures tl {}).name = none := by
        simp [romCaptures, hnm]
      rw [hr]
    · rw [if_neg h7]
  · rw [if_neg h6]
    by_cases h8 : tl = [')'] ∧ st.inRom = true
    · rw [if_pos h8, hrn]
    · rw [if_neg h8]
      by_cases h9 : st.inRom = true ∧ tl ≠ []
      · rw [if_pos h9]
      · rw [if_neg h9]
        by_cases h10 : st.inGame = true ∧ tl ≠ []
        · rw [if_pos h10]
        · rw [if_neg h10]

/-- C4 (amended): `parseDAT` on the empty document `""` yields the
empty collection without failing; in the line-oriented dialect a line
emits no entry while the game name is unset, nor while the rom name is
unset and the line supplies none — so zero-valid-entry line-dialect
documents parse to `[]`.  (The markup parser, by contrast, substitutes
an empty name rather than skipping: see the counterexample.) -/
theorem parseDAT_empty_and_missing_name_skip :
    (∀ (dom : String → List XmlGame) (kp : Option String), parseDAT dom "" kp = []) ∧
    (∀ (kp : Option String) (st : PState) (line : String),
      st.currentGame.name = none →
      (processLine kp st line).entries = st.entries) ∧
    (∀ (kp : Option String) (st : PState) (line : String),
      st.currentRom.name = none →
      findCapQuoted "name".data (trimL line.data) = none →
      (processLine kp st line).entries = st.entries) := by
  refine ⟨fun dom kp => rfl, ?_, ?_⟩
  · intro kp st line hg
    exact processLineCore_no_game_name kp st (trimL line.data) hg
  · intro kp st line hrn hnm
    exact processLineCore_no_rom_name kp st (trimL line.data) hrn hnm

/-- Witness for the amended C4: the empty document parses to `[]`; a
rom-opening line emits nothing in the fresh state (no game name), and a
rom-closing line emits nothing when no rom name was captured. -/
theorem parseDAT_empty_and_missing_name_skip_witness :
    parseDAT domNoNameGame "" none = [] ∧
    (processLine none {} "rom ( size 7 crc aaaa1111 )").entries = [] ∧
    (processLine none
        { inGame := true, inRom := true, currentGame := { name := some "G" } }
        ")").entries = [] := by
  refine ⟨parseDAT_empty_and_missing_name_skip.1 domNoNameGame none, ?_, ?_⟩
  · exact parseDAT_empty_and_missing_name_skip.2.1 none {} "rom ( size 7 crc aaaa1111 )" rfl
  · exact parseDAT_empty_and_missing_name_skip.2.2 none
      { inGame := true, inRom := true, currentGame := { name := some "G" } }
      ")" rfl (by decide)

/-- Counterexample to C8 as stated: two `crc` continuation lines inside
one rom block — the emitted entry carries the *last* capture
(`BBBB2222`), not the first (`AAAA1111`): a later occurrence does
replace an already-set field. -/
theorem parseClrMamePro_last_capture_wins :
    (parseClrMameProDAT
        "game (\nname \"G\"\nrom (\nname \"R\"\nsize 7\ncrc aaaa1111\ncrc bbbb2222\n)\n)"
        (some "P")).map (fun e => e.crc32) = [some "BBBB2222"] ∧
    (parseClrMameProDAT
        "game (\nname \"G\"\nrom (\nname \"R\"\nsize 7\ncrc aaaa1111\ncrc bbbb2222\n)\n)"
        (some "P")).map (fun e => e.crc32) ≠ [some "AAAA1111"] := by
  constructor
  · decide
  · decide

/-- On a continuation line (inside a rom block, not a delimiter), the
state update is exactly a merge of the line's captures into
`currentRom`. -/
theorem processLineCore_continuation (kp : Option String) (st : PState)
    (tl : List Char)
    (h1 : headL "clrmamepro (".data tl = false)
    (h2 : tl ≠ [')'])
    (h3 : st.inHeader = false)
    (h4 : headL "game (".data tl = false)
    (h5 : headL "rom (".data tl = false)
    (hrom : st.inRom = true)
    (hne : tl ≠ []) :
    processLineCore kp st tl
      = { st with currentRom := romCaptures tl st.currentRom } := by
  unfold processLineCore
  rw [if_neg (by simp [h1])]
  rw [if_neg (by simp [h3])]
  rw [if_neg (by simp [h3])]
  rw [if_neg (by simp [h4])]
  rw [if_neg (by simp [h2])]
  rw [if_neg (by simp [h5])]
  rw [if_neg (by simp [h2])]
  rw [if_pos ⟨hrom, hne⟩]

/-- C8 (amended): on continuation lines inside a rom block the *last*
capture per field wins — whenever a field's regex matches on the
current line, the field is overwritten with that line's capture,
regardless of any value set by an earlier line. -/
theorem processLine_continuation_overwrites (kp : Option String) (st : PState)
    (line : String)
    (h1 : headL "clrmamepro (".data (trimL line.data) = false)
    (h2 : trimL line.data ≠ [')'])
    (h3 : st.inHeader = false)
    (h4 : headL "game (".data (trimL line.data) = false)
    (h5 : headL "rom (".data (trimL line.data) = false)
    (hrom : st.inRom = true)
    (hne : trimL line.data ≠ []) :
    (∀ c, findCapQuoted "name".data (trimL line.data) = some c →
      (processLine kp st line).currentRom.name = some (⟨c⟩ : String)) ∧
    (∀ c, findCapRun "size".data isDigitB (trimL line.data) = some c →
      (processLine kp st line).currentRom.size = some (digitsToNat c)) ∧
    (∀ c, findCapRun "crc".data isHexAttrChar (trimL line.data) = some c →
      (processLine kp st line).currentRom.crc32 = some (⟨c.map jsUpper⟩ : String)) ∧
    (∀ c, findCapRun "md5".data isHexAttrChar (trimL line.data) = some c →
      (processLine kp st line).currentRom.md5 = some (⟨c.map jsLower⟩ : String)) ∧
    (∀ c, findCapRun "sha1".data isHexAttrChar (trimL line.data) = some c →
      (processLine kp st line).currentRom.sha1 = some (⟨c.map jsLower⟩ : String)) := by
  have hcore : processLine kp st line
      = { st with currentRom := romCaptures (trimL line.data) st.currentRom } :=
    processLineCore_continuation kp st (trimL line.data) h1 h2 h3 h4 h5 hrom hne
  rw [hcore]
  refine ⟨?_, ?_, ?_, ?_, ?_⟩ <;> intro c hc <;> simp [romCaptures, hc]

/-- Witness for the amended C8: a `crc` continuation line overwrites a
previously set crc32 field. -/
theorem processLine_continuation_overwrites_witness :
    (processLine none
        { inGame := true, inRom := true, currentGame := { name := some "G" },
          currentRom := { name := some "R", crc32 := some "AAAA1111" } }
        "crc bbbb2222").currentRom.crc32 = some "BBBB2222" :=
  (processLine_continuation_overwrites none
      { inGame := true, inRom := true, currentGame := { name := some "G" },
        currentRom := { name := some "R", crc32 := some "AAAA1111" } }
      "crc bbbb2222"
      (by decide) (by decide) rfl (by decide) (by decide) rfl
      (by decide)).2.2.1 "bbbb2222".data (by decide)

theorem memGet_memSet (m : MemCache) (k : String) (v : List DATEntry) :
    memGet (memSet m k v) k = some v := by
  unfold memGet memSet
  rw [List.find?_cons_of_pos _ (by simp)]
  rfl

theorem getItem_setItem (st : Store) (k : String) (v : CachedDATData) :
    getItem (setItem st k v) k = some v := by
  unfold getItem setItem
  rw [List.find?_cons_of_pos _ (by simp)]
  rfl

/-- C10: a custom upload whose document parses to zero entries returns
an explicit failure (`success = false` with an error message) and
leaves both cache tiers untouched; a parse with at least one entry
succeeds and writes the entries into both tiers under the synthesized
`Custom - {basename}` label. -/
theorem uploadCustomDAT_cache_discipline (dom : String → List XmlGame)
    (now : Nat) (fileName fileContent : String) (mem : MemCache) (st : Store) :
    (parseDAT dom fileContent (some ("Custom - " ++ stripDatXml fileName)) = [] →
      (uploadCustomDAT dom now fileName fileContent mem st).1.success = false ∧
      ((uploadCustomDAT dom now fileName fileContent mem st).1.error).isSome = true ∧
      (uploadCustomDAT dom now fileName fileContent mem st).2.1 = mem ∧
      (uploadCustomDAT dom now fileName fileContent mem st).2.2 = st) ∧
    (parseDAT dom fileContent (some ("Custom - " ++ stripDatXml fileName)) ≠ [] →
      (uploadCustomDAT dom now fileName fileContent mem st).1.success = true ∧
      (uploadCustomDAT dom now fileName fileContent mem st).1.platform
        = "Custom - " ++ stripDatXml fileName ∧
      memGet (uploadCustomDAT dom now fileName fileContent mem st).2.1
        ("custom-" ++ ("Custom - " ++ stripDatXml fileName))
        = some (parseDAT dom fileContent (some ("Custom - " ++ stripDatXml fileName))) ∧
      getItem (uploadCustomDAT dom now fileName fileContent mem st).2.2
        (getCacheKey ("Custom - " ++ stripDatXml fileName) "custom")
        = some { entries := parseDAT dom fileContent
                   (some ("Custom - " ++ stripDatXml fileName)),
                 timestamp := now, version := CACHE_VERSION }) := by
  constructor
  · intro he
    simp only [uploadCustomDAT, he, List.length_nil]
    simp
  · intro hne
    have hlen : (parseDAT dom fileContent
        (some ("Custom - " ++ stripDatXml fileName))).length ≠ 0 := by
      simpa [List.length_eq_zero] using hne
    simp only [uploadCustomDAT, if_neg hlen]
    refine ⟨trivial, trivial, memGet_memSet _ _ _, ?_⟩
    unfold saveToPersistentCache
    exact getItem_setItem _ _ _

/-- Witness for C10: an empty custom document fails with no cache
write; a one-game ClrMamePro document succeeds and lands in both
tiers. -/
theorem uploadCustomDAT_cache_discipline_witness :
    ((uploadCustomDAT domNoNameGame 5 "x.dat" "" [] []).1.success = false ∧
      ((uploadCustomDAT domNoNameGame 5 "x.dat" "" [] []).1.error).isSome = true ∧
      (uploadCustomDAT domNoNameGame 5 "x.dat" "" [] []).2.1 = [] ∧
      (uploadCustomDAT domNoNameGame 5 "x.dat" "" [] []).2.2 = []) ∧
    ((uploadCustomDAT domNoNameGame 5 "y.dat"
        "game (\nname \"G\"\nrom ( name \"R\" size 7 crc aaaa1111 )\n)"
        [] []).1.success = true) := by
  constructor
  · exact (uploadCustomDAT_cache_discipline domNoNameGame 5 "x.dat" "" [] []).1
      (by decide)
  · exact ((uploadCustomDAT_cache_discipline domNoNameGame 5 "y.dat"
      "game (\nname \"G\"\nrom ( name \"R\" size 7 crc aaaa1111 )\n)" [] []).2
      (by decide)).1

/-- Counterexample to C7's purge clause: `getRawDATContent` is a read
path over the durable cache (cited by the claim), yet on a stale record
(age far beyond 24h here) it returns `none` and leaves the record in
the store — the source calls no `removeItem` on this path. -/
theorem getRawDATContent_stale_not_purged :
    getRawDATContent (fun _ => none) (fun _ => "") 100000000000
        ([(getCacheKey "PSP" "libretro",
           { entries := [], timestamp := 0, version := "1.0" })] : Store)
        "PSP" "libretro"
      = (none,
         ([(getCacheKey "PSP" "libretro",
            { entries := [], timestamp := 0, version := "1.0" })] : Store)) ∧
    getItem ([(getCacheKey "PSP" "libretro",
        { entries := [], timestamp := 0, version := "1.0" })] : Store)
      (getCacheKey "PSP" "libretro")
      = some { entries := [], timestamp := 0, version := "1.0" } ∧
    100000000000 - 0 > CACHE_EXPIRY_HOURS * 60 * 60 * 1000 := by
  refine ⟨?_, ?_, ?_⟩
  · decide
  · decide
  · decide

/-- C7 (amended): a durable record with a schema-version mismatch or
age beyond 24 hours is never returned by either read path over the
durable store; `loadFromPersistentCache` purges it on first access,
while `getRawDATContent` merely returns `none` and leaves the record in
place. -/
theorem stale_cache_never_returned (now : Nat) (st : Store)
    (platform source : String) (data : CachedDATData)
    (hdata : getItem st (getCacheKey platform source) = some data)
    (hstale : data.version ≠ CACHE_VERSION ∨
      now - data.timestamp > CACHE_EXPIRY_HOURS * 60 * 60 * 1000) :
    loadFromPersistentCache now st platform source
      = (none, removeItem st (getCacheKey platform source)) ∧
    (source ≠ "bundled" →
      ∀ (fetchText : String → Option String) (localeFmt : Nat → String),
        getRawDATContent fetchText localeFmt now st platform source = (none, st)) := by
  constructor
  · unfold loadFromPersistentCache
    rw [hdata]
    dsimp only
    rw [if_pos hstale]
  · intro hsrc fetchText localeFmt
    unfold getRawDATContent
    rw [if_neg hsrc, hdata]
    dsimp only
    rw [if_pos hstale.symm]

/-- Witness for the amended C7 at a concrete stale record (valid
version, expired age). -/
theorem stale_cache_never_returned_witness :
    loadFromPersistentCache 100000000000
        ([(getCacheKey "PSP" "libretro",
           { entries := [], timestamp := 0, version := "1.0" })] : Store)
        "PSP" "libretro"
      = (none,
         removeItem ([(getCacheKey "PSP" "libretro",
            { entries := [], timestamp := 0, version := "1.0" })] : Store)
           (getCacheKey "PSP" "libretro")) ∧
    getRawDATContent (fun _ => none) (fun _ => "") 100000000000
        ([(getCacheKey "PSP" "libretro",
           { entries := [], timestamp := 0, version := "1.0" })] : Store)
        "PSP" "libretro"
      = (none,
         ([(getCacheKey "PSP" "libretro",
            { entries := [], timestamp := 0, version := "1.0" })] : Store)) := by
  have h := stale_cache_never_returned 100000000000
      ([(getCacheKey "PSP" "libretro",
         { entries := [], timestamp := 0, version := "1.0" })] : Store)
      "PSP" "libretro" { entries := [], timestamp := 0, version := "1.0" }
      (by decide) (Or.inr (by decide))
  exact ⟨h.1, h.2 (by decide) (fun _ => none) (fun _ => "")⟩

theorem validateROM_filename (f : FileInfo) (h : FileHashes)
    (entries : List DATEntry) (ds : Option String) :
    (validateROM f h entries ds).filename = f.name := by
  cases hfind : List.find? (entryMatches h) entries <;>
    simp [validateROM, hfind]

theorem firstMatchResult_shape (o : Oracles) (f : FileInfo) (h : FileHashes) :
    ∀ (ps : List String) (r : ValidationResult),
      firstMatchResult o f h ps = some r →
      ∃ p, r = validateROM f h (o.loadPlatformDAT p) (getDATSource p) := by
  intro ps
  induction ps with
  | nil => intro r hr; simp [firstMatchResult] at hr
  | cons p rest ih =>
    intro r hr
    unfold firstMatchResult at hr
    dsimp only at hr
    by_cases hs : (validateROM f h (o.loadPlatformDAT p) (getDATSource p)).status
        = VStatus.unknown
    · rw [if_pos hs] at hr
      exact ih r hr
    · rw [if_neg hs] at hr
      exact ⟨p, (Option.some.injEq _ _ ▸ hr).symm⟩

theorem autoValidate_shape (o : Oracles) (f : FileInfo) (h : FileHashes)
    (isoFallback : List String) :
    ∃ es ds, autoValidate o f h isoFallback = validateROM f h es ds := by
  unfold autoValidate
  cases hp : getPlatformsForFile f.name with
  | nil => exact ⟨o.loadAllDATs, some "Mixed", rfl⟩
  | cons p1 ps =>
    cases ps with
    | nil => exact ⟨_, _, rfl⟩
    | cons p2 rest =>
      dsimp only
      cases hfm : firstMatchResult o f h
          (if (p1 :: p2 :: rest).contains (detectPlatformFromName f.name f.size) then
            detectPlatformFromName f.name f.size ::
              (p1 :: p2 :: rest).filter
                (fun q => !(q == detectPlatformFromName f.name f.size))
          else p1 :: p2 :: rest) with
      | some r =>
        rcases firstMatchResult_shape o f h _ r hfm with ⟨p, rfl⟩
        exact ⟨_, _, rfl⟩
      | none =>
        cases hfm2 : firstMatchResult o f h
            ((if extOf (lowerStr f.name) = ".iso" then isoFallback
              else if extOf (lowerStr f.name) = ".bin" then
                ["PlayStation", "Dreamcast", "PlayStation 2"]
              else []).filter
              (fun q => !((if (p1 :: p2 :: rest).contains
                    (detectPlatformFromName f.name f.size) then
                  detectPlatformFromName f.name f.size ::
                    (p1 :: p2 :: rest).filter
                      (fun q2 => !(q2 == detectPlatformFromName f.name f.size))
                else p1 :: p2 :: rest).contains q))) with
        | some r =>
          rcases firstMatchResult_shape o f h _ r hfm2 with ⟨p, rfl⟩
          exact ⟨_, _, rfl⟩
        | none => exact ⟨_, _, rfl⟩

theorem perFileValidate_shape (o : Oracles) (force : Option String) (f : FileInfo) :
    ∃ es ds, perFileValidate o force f = validateROM f (o.hashFile f) es ds := by
  cases force with
  | none => exact autoValidate_shape o f (o.hashFile f) _
  | some fp =>
    unfold perFileValidate
    dsimp only
    by_cases hs : (validateROM f (o.hashFile f) (o.loadPlatformDAT fp)
        (getDATSource fp)).status ≠ VStatus.unknown
    · rw [if_pos hs]
      exact ⟨_, _, rfl⟩
    · rw [if_neg hs]
      exact autoValidate_shape o f (o.hashFile f) _

theorem perFileValidate_filename (o : Oracles) (force : Option String)
    (f : FileInfo) : (perFileValidate o force f).filename = f.name := by
  rcases perFileValidate_shape o force f with ⟨es, ds, heq⟩
  rw [heq, validateROM_filename]

theorem validateROMsGo_eq_map (o : Oracles) (force : Option String) :
    ∀ l : List FileInfo, validateROMsGo o force l = l.map (perFileValidate o force) := by
  intro l
  induction l with
  | nil => rfl
  | cons f rest ih => simp [validateROMsGo, ih]

/-- C5: `validateROMs` drops every file whose extension is `.cue`
before hashing; the outcome list is exactly one result per remaining
file, in input order, and no outcome belongs to a `.cue` file. -/
theorem validateROMs_filters_cue (o : Oracles) (force : Option String)
    (files : List FileInfo) :
    validateROMs o force files
      = (files.filter (fun f => !(extOf (lowerStr f.name) == ".cue"))).map
          (perFileValidate o force) ∧
    (∀ r ∈ validateROMs o force files, extOf (lowerStr r.filename) ≠ ".cue") ∧
    (∀ r ∈ validateROMs o force files,
      ∃ f ∈ files, extOf (lowerStr f.name) ≠ ".cue" ∧ r.filename = f.name) := by
  have h1 : validateROMs o force files
      = (files.filter (fun f => !(extOf (lowerStr f.name) == ".cue"))).map
          (perFileValidate o force) :=
    validateROMsGo_eq_map o force _
  refine ⟨h1, ?_, ?_⟩
  · intro r hr
    rw [h1] at hr
    rcases List.mem_map.mp hr with ⟨f, hf, rfl⟩
    have hext := List.of_mem_filter hf
    rw [perFileValidate_filename]
    simpa using hext
  · intro r hr
    rw [h1] at hr
    rcases List.mem_map.mp hr with ⟨f, hf, rfl⟩
    have hext := List.of_mem_filter hf
    exact ⟨f, List.mem_of_mem_filter hf, by simpa using hext,
      perFileValidate_filename o force f⟩

/-- Witness for C5: a batch of one `.cue` file and one `.gba` file
(empty catalogs, sentinel digests) — the `.cue` file is dropped and the
single remaining outcome belongs to the `.gba` file. -/
theorem validateROMs_filters_cue_witness :
    validateROMs ⟨fun _ => [], [], fun _ => ⟨"unavailable", "unavailable", "00000000"⟩⟩
        none [⟨"a.cue", 1⟩, ⟨"b.gba", 2⟩]
      = ([⟨"a.cue", 1⟩, ⟨"b.gba", 2⟩].filter
          (fun f => !(extOf (lowerStr f.name) == ".cue"))).map
          (perFileValidate
            ⟨fun _ => [], [], fun _ => ⟨"unavailable", "unavailable", "00000000"⟩⟩ none) ∧
    extOf (lowerStr (perFileValidate
        ⟨fun _ => [], [], fun _ => ⟨"unavailable", "unavailable", "00000000"⟩⟩
        none ⟨"b.gba", 2⟩).filename) ≠ ".cue" := by
  refine ⟨(validateROMs_filters_cue _ none _).1, ?_⟩
  exact (validateROMs_filters_cue
      ⟨fun _ => [], [], fun _ => ⟨"unavailable", "unavailable", "00000000"⟩⟩
      none [⟨"a.cue", 1⟩, ⟨"b.gba", 2⟩]).2.1 _ (by decide)
